import Mathlib

/-!
Verification of the obsidian-lexicon plugin (src/main.ts).

The parser operates on JavaScript strings; we embed strings as `List Char`.
The three regular expressions of the plugin
(`definitionFoundPattern`, `definitionSourcePattern`, `noDefinitionPattern`,
src/main.ts lines 19-21) are simple enough that their JavaScript matching
semantics (leftmost match, greedy quantifiers, `.` excluding line
terminators) can be written out directly as anchored matchers returning the
length of the match at the current position; `getNextMatchBounds`
(src/main.ts lines 169-180) then scans start positions left to right, which
is exactly what a fresh `RegExp.exec` with `lastIndex = 0` does.
-/

namespace Lexicon

/-- The character class of the JavaScript `.` (dot) without the `s` flag:
every character except the line terminators `\n`, `\r`, U+2028, U+2029. -/
def isDotChar (c : Char) : Bool :=
  !(c == '\n' || c == '\r' || c == '\u2028' || c == '\u2029')

/-- The whitespace class removed by JavaScript `String.prototype.trim`:
ASCII whitespace, NBSP, the Unicode space separators, the line separators
and the BOM. -/
def isJsWhitespace (c : Char) : Bool :=
  c == ' ' || c == '\t' || c == '\n' || c == '\x0b' || c == '\x0c' || c == '\r' ||
  c == '\u00a0' || c == '\u1680' || ('\u2000' ≤ c && c ≤ '\u200a') ||
  c == '\u2028' || c == '\u2029' || c == '\u202f' || c == '\u205f' ||
  c == '\u3000' || c == '\ufeff'

/-- JavaScript `String.prototype.trim`: drop leading and trailing
whitespace. -/
def jsTrim (s : List Char) : List Char :=
  ((s.dropWhile isJsWhitespace).reverse.dropWhile isJsWhitespace).reverse

/-- The Unicode simple lowercase mapping on the Basic Latin and Latin-1
ranges, which is what `String.prototype.toLowerCase` computes on the
dictionary tool's output (suggestion lists).  `A`-`Z` and `À`-`Þ` (except
`×`) map down by 32; everything else in these ranges is fixed. -/
def jsToLowerChar (c : Char) : Char :=
  if 65 ≤ c.toNat ∧ c.toNat ≤ 90 then Char.ofNat (c.toNat + 32)
  else if 192 ≤ c.toNat ∧ c.toNat ≤ 222 ∧ c.toNat ≠ 215 then Char.ofNat (c.toNat + 32)
  else c

/-- `String.prototype.toLowerCase` over an embedded string. -/
def jsToLowerList (s : List Char) : List Char := s.map jsToLowerChar

/-- `String.prototype.includes`: `containsSub needle hay` is true iff
`needle` occurs contiguously in `hay`.  The needle is used literally; it is
never compiled into a pattern. -/
def containsSub (needle : List Char) : List Char → Bool
  | [] => needle.isEmpty
  | c :: rest => needle.isPrefixOf (c :: rest) || containsSub needle rest

/-- The literal `From ` opening `definitionSourcePattern` (src/main.ts
line 21). -/
def fromHeaderLit : List Char := "From ".toList

/-- The tail of `definitionFoundPattern` when `s?` matches `s`:
the literal after the digits in `\d+ definitions? found\n\n`
(src/main.ts line 19). -/
def defsFoundTail : List Char := " definitions found\n\n".toList

/-- The tail of `definitionFoundPattern` when `s?` matches nothing. -/
def defFoundTail : List Char := " definition found\n\n".toList

/-- The opening literal of `noDefinitionPattern` (src/main.ts line 20):
`No definitions found for "`. -/
def noDefPrefixLit : List Char := "No definitions found for \"".toList

/-- The literal of `noDefinitionPattern` between the quoted term and the
newline: `", perhaps you mean:`. -/
def meanSuffixLit : List Char := "\", perhaps you mean:".toList

/-- Anchored matcher for `definitionFoundPattern = \d+ definitions? found\n\n`
(src/main.ts line 19): a nonempty maximal digit run (shortening the greedy
`\d+` can never help, since the next pattern character is a space and the
next text character would be a digit) followed by one of the two literal
tails; the greedy `s?` tries the `definitions` tail first.  Returns the
length of the match when the pattern matches at the head of `s`. -/
def matchDefFound (s : List Char) : Option Nat :=
  if (s.takeWhile Char.isDigit).length = 0 then none
  else if defsFoundTail.isPrefixOf (s.drop (s.takeWhile Char.isDigit).length) then
    some ((s.takeWhile Char.isDigit).length + defsFoundTail.length)
  else if defFoundTail.isPrefixOf (s.drop (s.takeWhile Char.isDigit).length) then
    some ((s.takeWhile Char.isDigit).length + defFoundTail.length)
  else none

/-- The condition under which `From .+:\n\n` matches at the head of
`From ` ++ `u`, where `p` is the length of the maximal dot-character run of
`u`.  The `.+` cannot cross a line terminator, so the matched `:` must be
immediately followed by the first line terminator of `u`, which must be an
actual `\n` at position `p`; the `.+` part is `u.take (p - 1)` and must be
nonempty, so `2 ≤ p`; the second `\n` of the pattern sits at `p + 1`. -/
def defSourceCond (u : List Char) (p : Nat) : Prop :=
  p < u.length ∧ u[p]? = some '\n' ∧ 2 ≤ p ∧ u[p - 1]? = some ':' ∧ u[p + 1]? = some '\n'

instance (u : List Char) (p : Nat) : Decidable (defSourceCond u p) := by
  unfold defSourceCond; infer_instance

/-- Anchored matcher for `definitionSourcePattern = From .+:\n\n`
(src/main.ts line 21).  The match is `From ` (5 chars), the `.+` part
(`p - 1` chars), then `:\n\n`, i.e. `p + 7` characters in total. -/
def matchDefSource (s : List Char) : Option Nat :=
  if fromHeaderLit.isPrefixOf s then
    if defSourceCond (s.drop 5) ((s.drop 5).takeWhile isDotChar).length then
      some (((s.drop 5).takeWhile isDotChar).length + 7)
    else none
  else none

/-- The condition on the first line of `noDefinitionPattern` after the
opening literal: with `p` the length of the maximal dot run of `u`, the
line must really end in `\n` at position `p`, and end with the literal
`", perhaps you mean:` (20 chars) preceded by the nonempty greedy `.+`
(so `21 ≤ p`). -/
def noDefLine1Cond (u : List Char) (p : Nat) : Prop :=
  p < u.length ∧ u[p]? = some '\n' ∧ 21 ≤ p ∧ meanSuffixLit.isSuffixOf (u.take p) = true

instance (u : List Char) (p : Nat) : Decidable (noDefLine1Cond u p) := by
  unfold noDefLine1Cond; infer_instance

/-- Search downward from index `m` for the largest `k` with `1 ≤ k ≤ m`
such that `v[k] = ':'`, `v[k+1] = ' '`, `v[k+2] = ' '`.  This realises the
greedy `.+:  ` of `noDefinitionPattern` on the suggestion line `v`: the
greedy `.+` makes the regex engine commit to the rightmost such colon. -/
def findColonDoubleSpace (v : List Char) : Nat → Option Nat
  | 0 => none
  | k + 1 =>
    if v[k + 1]? = some ':' ∧ v[k + 2]? = some ' ' ∧ v[k + 3]? = some ' ' then
      some (k + 1)
    else findColonDoubleSpace v k

/-- Length of the maximal dot-character run of the text after the opening
literal of `noDefinitionPattern` (the quoted-term line). -/
def noDefLine1Len (s : List Char) : Nat := ((s.drop 26).takeWhile isDotChar).length

/-- The text after the first line's `\n`: the suggestion line (and
everything after it). -/
def noDefSuggLine (s : List Char) : List Char := (s.drop 26).drop (noDefLine1Len s + 1)

/-- Anchored matcher for
`noDefinitionPattern = No definitions found for ".+", perhaps you mean:\n.+:  `
(src/main.ts line 20).  The opening literal is 26 characters; then the
first line (`p` chars) must end with `", perhaps you mean:`; then the `\n`;
then on the suggestion line the greedy `.+:  ` ends 3 characters past the
rightmost colon-double-space within that line (the `.+` cannot cross the
line's terminator, hence the search bound `q - 1` where `q` is the line's
dot-run length; the colon and spaces are themselves dot characters, so any
hit below `q` is inside the line). -/
def matchNoDef (s : List Char) : Option Nat :=
  if noDefPrefixLit.isPrefixOf s then
    if noDefLine1Cond (s.drop 26) (noDefLine1Len s) then
      match findColonDoubleSpace (noDefSuggLine s)
          (((noDefSuggLine s).takeWhile isDotChar).length - 1) with
      | none => none
      | some k => some (26 + noDefLine1Len s + 1 + k + 3)
    else none
  else none

/-- Position scan of `getNextMatchBounds` (src/main.ts lines 169-180):
try the anchored matcher `m` at position `i`, then at `i + 1`, and so on.
This is what `RegExp.exec` with the `g` flag and `lastIndex = 0` does:
it reports the leftmost match. -/
def getNextMatchBoundsAux (m : List Char → Option Nat) : Nat → List Char → Option (Nat × Nat)
  | i, [] =>
    match m [] with
    | some len => some (i, i + len)
    | none => none
  | i, c :: rest =>
    match m (c :: rest) with
    | some len => some (i, i + len)
    | none => getNextMatchBoundsAux m (i + 1) rest

/-- `getNextMatchBounds` (src/main.ts lines 169-180): a fresh regex object
is constructed on every call, so each call is a pure function of the
pattern and the input; it returns
`[lastIndex - match.length, lastIndex]`, i.e. the half-open bounds of the
leftmost match, or `null` when there is no match. -/
def getNextMatchBounds (m : List Char → Option Nat) (s : List Char) : Option (Nat × Nat) :=
  getNextMatchBoundsAux m 0 s

/-- The header-stripping loop of `tryParseDefinitions` (src/main.ts lines
71-78), written with explicit fuel so that it stays a structural recursion
the kernel can evaluate: while `definitionSourcePattern` matches, remove
the matched slice (`substring(0, start) + substring(end)`) and search
again.  Each removal deletes at least 9 characters (see
`stripSources_terminating`), so `length + 1` units of fuel always reach the
loop's exit condition. -/
def stripSourcesFuel : Nat → List Char → List Char
  | 0, s => s
  | f + 1, s =>
    match getNextMatchBounds matchDefSource s with
    | none => s
    | some (a, b) => stripSourcesFuel f (s.take a ++ s.drop b)

/-- The header-stripping loop with its fuel instantiated. -/
def stripSources (s : List Char) : List Char := stripSourcesFuel (s.length + 1) s

/-- `tryParseDefinitions` (src/main.ts lines 59-81): locate
`definitionFoundPattern`; on failure return `null`; otherwise take
`text.slice(end - 1)` (one character before the match end, i.e. including
the second `\n` of the marker), trim it, strip all `From <source>:`
headers, and trim again. -/
def tryParseDefinitions (text : List Char) : Option (List Char) :=
  match getNextMatchBounds matchDefFound text with
  | none => none
  | some (_, e) => some (jsTrim (stripSources (jsTrim (text.drop (e - 1)))))

/-- `String.prototype.split('  ')`: split on each non-overlapping
occurrence of two spaces, scanning left to right, keeping empty segments. -/
def splitOnDS : List Char → List (List Char)
  | [] => [[]]
  | [c] => [[c]]
  | c1 :: c2 :: rest =>
    if c1 = ' ' ∧ c2 = ' ' then [] :: splitOnDS rest
    else
      match splitOnDS (c2 :: rest) with
      | [] => [[c1]]
      | x :: xs => (c1 :: x) :: xs

/-- The number of delimiter occurrences consumed by `splitOnDS`. -/
def countDS : List Char → Nat
  | [] => 0
  | [_] => 0
  | c1 :: c2 :: rest =>
    if c1 = ' ' ∧ c2 = ' ' then countDS rest + 1
    else countDS (c2 :: rest)

/-- `tryParseWordSuggestions` (src/main.ts lines 83-96): locate
`noDefinitionPattern`; on failure return `null`; otherwise split
`text.slice(end)` on double spaces. -/
def tryParseWordSuggestions (text : List Char) : Option (List (List Char)) :=
  match getNextMatchBounds matchNoDef text with
  | none => none
  | some (_, e) => some (splitOnDS (text.drop e))

/-- The classification the spec calls `ParseResult`: the three-way outcome
of the parsing phase of `addWordEntry`. -/
inductive ParseResult where
  | found (definition : List Char)
  | notFound (suggestions : List (List Char))
  | malformed
deriving DecidableEq

/-- The parsing/branching logic of `addWordEntry` (src/main.ts lines
108-126): a non-null result of `tryParseDefinitions` (even an empty
string: the code only compares against `null`) goes to the note-creation
path; otherwise a null or empty suggestion list is the terminal
"couldn't find word" outcome (`malformed`), and a nonempty list opens the
suggestion modal (`notFound`). -/
def addWordEntryClassification (raw : List Char) : ParseResult :=
  match tryParseDefinitions raw with
  | some d => ParseResult.found d
  | none =>
    match tryParseWordSuggestions raw with
    | none => ParseResult.malformed
    | some sgs => if sgs.length < 1 then ParseResult.malformed else ParseResult.notFound sgs

/-- The observable outcome of `execSync` on the dict command: either a
normal exit (code 0, stdout captured) or a thrown error carrying an exit
status (absent when the process was killed by a signal or failed to spawn)
and the stderr text. -/
inductive ProcOutcome where
  | exited (stdout : List Char)
  | threw (status : Option Nat) (stderrText : List Char)

/-- `getDictionaryResult` (src/main.ts lines 182-206): on a normal exit
return stdout; in the catch block, exactly `err.status === 21` returns the
stderr text; every other thrown error returns `null`.  The function itself
never rethrows and is called exactly once per lookup. -/
def getDictionaryResult : ProcOutcome → Option (List Char)
  | ProcOutcome.exited out => some out
  | ProcOutcome.threw status errText => if status = some 21 then some errText else none

/-- The front of `addWordEntry` (src/main.ts lines 98-126) composed with
`getDictionaryResult`: a `null` or empty (JavaScript-falsy) dictionary
result aborts the lookup; any other raw text is classified by the
parsers. -/
def lookupOutcome (po : ProcOutcome) : Option ParseResult :=
  match getDictionaryResult po with
  | none => none
  | some raw => if raw.length = 0 then none else some (addWordEntryClassification raw)

/-- Association-list lookup modelling `fs.existsSync`/file contents: the
vault is a list of (path, content) pairs. -/
def fsLookup (path : List Char) : List (List Char × List Char) → Option (List Char)
  | [] => none
  | e :: rest => if e.1 = path then some e.2 else fsLookup path rest

/-- Outcome of `createWordNote`. -/
inductive NoteResult where
  | created
  | alreadyExists
  | ioError
deriving DecidableEq

/-- `createWordNote` (src/main.ts lines 150-167): if a file exists at
`path`, report that the entry already exists and write nothing; otherwise
write the definition as the file's whole content in one operation.
`writeOk` models whether `fs.writeFile` reports an error to its callback
(in which case nothing is persisted). -/
def createWordNote (writeOk : Bool) (files : List (List Char × List Char))
    (path text : List Char) : List (List Char × List Char) × NoteResult :=
  if (fsLookup path files).isSome then (files, NoteResult.alreadyExists)
  else if writeOk then ((path, text) :: files, NoteResult.created)
  else (files, NoteResult.ioError)

/-- `WordSuggestionModal.getSuggestions` (src/main.ts lines 253-257):
keep the suggestions whose lowercased text contains the lowercased live
query as a literal substring.  `Array.prototype.filter` preserves order. -/
def getSuggestions (suggestions : List (List Char)) (query : List Char) : List (List Char) :=
  suggestions.filter fun s => containsSub (jsToLowerList query) (jsToLowerList s)

/-- Scenario A of the spec. -/
def rawScenarioA : List Char :=
  "1 definition found\n\nFrom Test Dict:\n\ncat: a small domestic animal".toList

/-- A raw output whose body carries a `From <source>:` header at its very
end: the marker, a first header, body text, and a trailing header. -/
def rawTrailingHeader : List Char := "1 definition found\n\nFrom A:\n\nbody From B:\n\n".toList

/-- A raw output that is just the `definitions found` marker with no body. -/
def rawEmptyBody : List Char := "1 definition found\n\n".toList

/-- Scenario B of the spec, verbatim: the suggestion line has no
`source:  ` prefix. -/
def rawScenarioB : List Char :=
  "No definitions found for \"catt\", perhaps you mean:\ncat  catty  category  ".toList

/-- Scenario B as the dict tool actually prints it, with the
`fd-fra-eng:  ` source prefix required by `noDefinitionPattern`. -/
def rawSuggestionsDict : List Char :=
  "No definitions found for \"catt\", perhaps you mean:\nfd-fra-eng:  cat  catty  category  ".toList

/-- Scenario C of the spec. -/
def rawScenarioC : List Char := "garbage unrelated text".toList

/-- The definition text of Scenario A. -/
def defScenarioA : List Char := "cat: a small domestic animal".toList

/-- What the code actually produces on `rawTrailingHeader`. -/
def strBodyFromB : List Char := "body From B:".toList

/-- What stripping all headers from the untrimmed body produces on
`rawTrailingHeader`. -/
def strBody : List Char := "body".toList

/-- The suggestions of Scenario B. -/
def suggCat : List Char := "cat".toList

/-- The suggestions of Scenario B. -/
def suggCatty : List Char := "catty".toList

/-- The suggestions of Scenario B. -/
def suggCategory : List Char := "category".toList

/-- A vault path for Scenario D. -/
def pathCat : List Char := "words/cat.md".toList

/-- The pre-existing content at `pathCat` in Scenario D. -/
def oldContent : List Char := "old definition".toList

/-- The freshly parsed content a second write would carry. -/
def newContent : List Char := "new definition".toList

/-- A vault that already holds an entry for `cat` (Scenario D). -/
def vaultCat : List (List Char × List Char) := [(pathCat, oldContent)]

/-- A sample stdout text for the process-invoker theorem. -/
def stdoutSample : List Char := "sample stdout".toList

/-- A text that begins with a complete `From <source>:` header. -/
def headerSample : List Char := "From A:\n\nrest".toList

theorem jsTrim_cons_ws {c : Char} (s : List Char) (h : isJsWhitespace c = true) :
    jsTrim (c :: s) = jsTrim s := by
  simp [jsTrim, List.dropWhile_cons, h]

theorem defsFoundTail_facts :
    defsFoundTail.length = 20 ∧ defsFoundTail.drop 19 = ['\n'] := by
  constructor <;> decide

theorem defFoundTail_facts :
    defFoundTail.length = 19 ∧ defFoundTail.drop 18 = ['\n'] := by
  constructor <;> decide

/-- Decompose a text around an appended literal that ends in `\n`:
dropping up to the literal's last character exposes that `\n`. -/
theorem drop_around_lit (t u lit : List Char) (n L : Nat) (hu : lit ++ u = t.drop n)
    (hL : lit.length = L + 1) (hlast : lit.drop L = ['\n']) :
    t.drop (n + L) = '\n' :: u ∧ t.drop (n + L + 1) = u := by
  constructor
  · rw [← List.drop_drop, ← hu, List.drop_append_eq_append_drop, hlast]
    have : L - lit.length = 0 := by omega
    rw [this, List.drop_zero]
    rfl
  · have : n + L + 1 = n + lit.length := by omega
    rw [this, ← List.drop_drop, ← hu, List.drop_left]

/-- When `definitionFoundPattern` matches at the head of `t` with length
`len`, the match is nonempty, fits inside `t`, and its final character is
the second `\n` of the marker. -/
theorem matchDefFound_spec (t : List Char) (len : Nat) (h : matchDefFound t = some len) :
    1 ≤ len ∧ len ≤ t.length ∧ t.drop (len - 1) = '\n' :: t.drop len := by
  unfold matchDefFound at h
  split at h
  · exact absurd h (by simp)
  split at h
  case isTrue hn0 hpre =>
    obtain ⟨u, hu⟩ := List.isPrefixOf_iff_prefix.mp hpre
    have hlen : (t.takeWhile Char.isDigit).length + defsFoundTail.length = len :=
      Option.some.inj h
    have h20 := defsFoundTail_facts
    have hnle : (t.takeWhile Char.isDigit).length ≤ t.length :=
      (List.takeWhile_prefix _).length_le
    have hulen : defsFoundTail.length + u.length = t.length - (t.takeWhile Char.isDigit).length := by
      rw [← List.length_append, hu, List.length_drop]
    obtain ⟨d1, d2⟩ :=
      drop_around_lit t u defsFoundTail (t.takeWhile Char.isDigit).length 19 hu
        (by omega) h20.2
    refine ⟨by omega, by omega, ?_⟩
    have e1 : len - 1 = (t.takeWhile Char.isDigit).length + 19 := by omega
    have e2 : len = (t.takeWhile Char.isDigit).length + 19 + 1 := by omega
    rw [e1, e2, d1, d2]
  split at h
  case isTrue hn0 hpre1 hpre =>
    obtain ⟨u, hu⟩ := List.isPrefixOf_iff_prefix.mp hpre
    have hlen : (t.takeWhile Char.isDigit).length + defFoundTail.length = len :=
      Option.some.inj h
    have h19 := defFoundTail_facts
    have hnle : (t.takeWhile Char.isDigit).length ≤ t.length :=
      (List.takeWhile_prefix _).length_le
    have hulen : defFoundTail.length + u.length = t.length - (t.takeWhile Char.isDigit).length := by
      rw [← List.length_append, hu, List.length_drop]
    obtain ⟨d1, d2⟩ :=
      drop_around_lit t u defFoundTail (t.takeWhile Char.isDigit).length 18 hu
        (by omega) h19.2
    refine ⟨by omega, by omega, ?_⟩
    have e1 : len - 1 = (t.takeWhile Char.isDigit).length + 18 := by omega
    have e2 : len = (t.takeWhile Char.isDigit).length + 18 + 1 := by omega
    rw [e1, e2, d1, d2]
  · exact absurd h (by simp)

/-- When `definitionSourcePattern` matches at the head of `t`, the match
has at least the 9 characters of `From X:\n\n` and fits inside `t`. -/
theorem matchDefSource_bounds (t : List Char) (len : Nat)
    (h : matchDefSource t = some len) : 9 ≤ len ∧ len ≤ t.length := by
  unfold matchDefSource at h
  split at h
  case isTrue hpre =>
    split at h
    case isTrue hc =>
      obtain ⟨hp1, hp2, hp3, hp4, hp5⟩ := hc
      have hlen := Option.some.inj h
      obtain ⟨hlt, -⟩ := List.getElem?_eq_some_iff.mp hp5
      have h5 : fromHeaderLit.length ≤ t.length :=
        (List.isPrefixOf_iff_prefix.mp hpre).length_le
      have h5' : fromHeaderLit.length = 5 := by decide
      rw [List.length_drop] at hlt hp1
      omega
    · exact absurd h (by simp)
  · exact absurd h (by simp)

theorem getNextMatchBoundsAux_none_iff (m : List Char → Option Nat) :
    ∀ (s : List Char) (i : Nat),
      getNextMatchBoundsAux m i s = none ↔ ∀ j, m (s.drop j) = none := by
  intro s
  induction s with
  | nil =>
    intro i
    cases hm0 : m [] with
    | some len => simp [getNextMatchBoundsAux, hm0, List.drop_nil]
    | none => simp [getNextMatchBoundsAux, hm0, List.drop_nil]
  | cons c rest ih =>
    intro i
    cases hms : m (c :: rest) with
    | some len =>
      simp only [getNextMatchBoundsAux, hms]
      constructor
      · intro h; exact absurd h (by simp)
      · intro h
        have h0 := h 0
        rw [List.drop_zero, hms] at h0
        exact absurd h0 (by simp)
    | none =>
      simp only [getNextMatchBoundsAux, hms]
      rw [ih (i + 1)]
      constructor
      · intro h j
        cases j with
        | zero => simpa using hms
        | succ j => simpa using h j
      · intro h j
        have := h (j + 1)
        simpa using this

theorem getNextMatchBoundsAux_some (m : List Char → Option Nat) :
    ∀ (s : List Char) (i a b : Nat), getNextMatchBoundsAux m i s = some (a, b) →
      i ≤ a ∧ a - i ≤ s.length ∧ a ≤ b ∧ m (s.drop (a - i)) = some (b - a) ∧
      ∀ j, j < a - i → m (s.drop j) = none := by
  intro s
  induction s with
  | nil =>
    intro i a b h
    cases hm0 : m [] with
    | some len =>
      simp only [getNextMatchBoundsAux, hm0, Option.some.injEq, Prod.mk.injEq] at h
      obtain ⟨ha, hb⟩ := h
      refine ⟨by omega, by omega, by omega, ?_, by omega⟩
      have hz : a - i = 0 := by omega
      rw [hz, List.drop_zero, hm0]
      congr 1
      omega
    | none => simp [getNextMatchBoundsAux, hm0] at h
  | cons c rest ih =>
    intro i a b h
    cases hms : m (c :: rest) with
    | some len =>
      simp only [getNextMatchBoundsAux, hms, Option.some.injEq, Prod.mk.injEq] at h
      obtain ⟨ha, hb⟩ := h
      refine ⟨by omega, by omega, by omega, ?_, by omega⟩
      have hz : a - i = 0 := by omega
      rw [hz, List.drop_zero, hms]
      congr 1
      omega
    | none =>
      simp only [getNextMatchBoundsAux, hms] at h
      obtain ⟨h1, h2, h3, h4, h5⟩ := ih (i + 1) a b h
      refine ⟨by omega, by simp only [List.length_cons]; omega, h3, ?_, ?_⟩
      · have hai : a - i = (a - (i + 1)) + 1 := by omega
        rw [hai, List.drop_succ_cons]
        exact h4
      · intro j hj
        cases j with
        | zero => simpa using hms
        | succ j =>
          rw [List.drop_succ_cons]
          exact h5 j (by omega)

/-- Leftmost-match characterisation specialised to the whole-text scan. -/
theorem getNextMatchBounds_some (m : List Char → Option Nat) (s : List Char) (a b : Nat)
    (h : getNextMatchBounds m s = some (a, b)) :
    a ≤ b ∧ a ≤ s.length ∧ m (s.drop a) = some (b - a) ∧
    ∀ j, j < a → m (s.drop j) = none := by
  obtain ⟨-, h2, h3, h4, h5⟩ := getNextMatchBoundsAux_some m s 0 a b h
  rw [Nat.sub_zero] at h2 h4 h5
  exact ⟨h3, h2, h4, h5⟩

theorem stripSourcesFuel_complete :
    ∀ (f : Nat) (s : List Char), s.length < f →
      getNextMatchBounds matchDefSource (stripSourcesFuel f s) = none := by
  intro f
  induction f with
  | zero => intro s h; omega
  | succ f ih =>
    intro s hs
    cases hb : getNextMatchBounds matchDefSource s with
    | none =>
      simp only [stripSourcesFuel, hb]
    | some ab =>
      obtain ⟨a, b⟩ := ab
      obtain ⟨hab, hal, hmatch, -⟩ := getNextMatchBounds_some matchDefSource s a b hb
      obtain ⟨h9, hle⟩ := matchDefSource_bounds _ _ hmatch
      rw [List.length_drop] at hle
      simp only [stripSourcesFuel, hb]
      apply ih
      rw [List.length_append, List.length_take, List.length_drop, Nat.min_eq_left hal]
      omega

/-- The stripping loop stops only when no header match is left. -/
theorem stripSources_no_match (s : List Char) :
    getNextMatchBounds matchDefSource (stripSources s) = none :=
  stripSourcesFuel_complete _ s (by omega)

theorem splitOnDS_ne_nil : ∀ s : List Char, splitOnDS s ≠ [] := by
  intro s
  rcases s with _ | ⟨c1, _ | ⟨c2, rest⟩⟩
  · simp [splitOnDS]
  · simp [splitOnDS]
  · simp only [splitOnDS]
    split
    · simp
    · cases hr : splitOnDS (c2 :: rest) <;> simp [hr]

theorem splitOnDS_length_eq (s : List Char) : (splitOnDS s).length = countDS s + 1 := by
  have H : ∀ (n : Nat) (s : List Char), s.length ≤ n →
      (splitOnDS s).length = countDS s + 1 := by
    intro n
    induction n with
    | zero =>
      intro s hs
      have hnil : s = [] := List.length_eq_zero.mp (by omega)
      subst hnil
      simp [splitOnDS, countDS]
    | succ n ih =>
      intro s hs
      rcases s with _ | ⟨c1, _ | ⟨c2, rest⟩⟩
      · simp [splitOnDS, countDS]
      · simp [splitOnDS, countDS]
      · simp only [List.length_cons] at hs
        by_cases hsp : c1 = ' ' ∧ c2 = ' '
        · simp only [splitOnDS, countDS, if_pos hsp, List.length_cons]
          rw [ih rest (by omega)]
        · simp only [splitOnDS, countDS, if_neg hsp]
          have hrec := ih (c2 :: rest) (by simp only [List.length_cons]; omega)
          cases hr : splitOnDS (c2 :: rest) with
          | nil => exact absurd hr (splitOnDS_ne_nil _)
          | cons x xs =>
            rw [hr] at hrec
            simp only [hr, List.length_cons]
            simp only [List.length_cons] at hrec
            omega
  exact H s.length s le_rfl

theorem containsSub_iff (needle : List Char) :
    ∀ hay : List Char, containsSub needle hay = true ↔
      ∃ pre post, hay = pre ++ needle ++ post := by
  intro hay
  induction hay with
  | nil =>
    simp only [containsSub, List.isEmpty_eq_true]
    constructor
    · intro h
      exact ⟨[], [], by simp [h]⟩
    · rintro ⟨pre, post, hp⟩
      rw [eq_comm, List.append_eq_nil, List.append_eq_nil] at hp
      exact hp.1.2
  | cons c rest ih =>
    simp only [containsSub, Bool.or_eq_true]
    constructor
    · rintro (hpre | hsub)
      · obtain ⟨post, hpost⟩ := List.isPrefixOf_iff_prefix.mp hpre
        exact ⟨[], post, by simpa using hpost.symm⟩
      · obtain ⟨pre, post, hp⟩ := ih.mp hsub
        exact ⟨c :: pre, post, by simp [hp]⟩
    · rintro ⟨pre, post, hp⟩
      cases pre with
      | nil =>
        left
        apply List.isPrefixOf_iff_prefix.mpr
        exact ⟨post, by simpa using hp.symm⟩
      | cons p ps =>
        right
        apply ih.mpr
        refine ⟨ps, post, ?_⟩
        simp only [List.cons_append, List.cons.injEq] at hp
        exact hp.2

/-- C1 (amended): whenever `definitionFoundPattern` first matches with end
position `e`, `tryParseDefinitions` returns the text after the marker,
first trimmed, then with every `From <source>:` header stripped
exhaustively, then trimmed again.  (The claim's strip-then-trim order is
refuted by `tryParseDefinitions_trailing_header_cex`: the code trims the
body before stripping, so a header whose terminating blank line is part of
the trailing whitespace survives.) -/
theorem tryParseDefinitions_strips_after_inner_trim (text : List Char) (a e : Nat)
    (h : getNextMatchBounds matchDefFound text = some (a, e)) :
    tryParseDefinitions text = some (jsTrim (stripSources (jsTrim (text.drop e)))) := by
  obtain ⟨hab, hal, hmatch, -⟩ := getNextMatchBounds_some _ _ _ _ h
  obtain ⟨h1, h2, h3⟩ := matchDefFound_spec _ _ hmatch
  have d1 : (text.drop a).drop (e - a - 1) = text.drop (e - 1) := by
    rw [List.drop_drop]
    congr 1
    omega
  have d2 : (text.drop a).drop (e - a) = text.drop e := by
    rw [List.drop_drop]
    congr 1
    omega
  rw [d1, d2] at h3
  simp only [tryParseDefinitions, h]
  rw [h3, jsTrim_cons_ws _ (by decide)]

/-- Witness for C1's amended theorem at Scenario A: the marker spans
`[0, 20)` and the parsed definition is the spec's expected string. -/
theorem tryParseDefinitions_scenarioA_witness :
    getNextMatchBounds matchDefFound rawScenarioA = some (0, 20) ∧
    tryParseDefinitions rawScenarioA =
      some (jsTrim (stripSources (jsTrim (rawScenarioA.drop 20)))) ∧
    tryParseDefinitions rawScenarioA = some defScenarioA :=
  ⟨by decide, tryParseDefinitions_strips_after_inner_trim rawScenarioA 0 20 (by decide),
    by decide⟩

/-- C1 counterexample: on `rawTrailingHeader` the marker first matches with
end 20, the claim's value (strip all headers from the text after the
marker, then trim) is `body`, but the code returns `body From B:` — the
inner trim removed the trailing `\n\n` before the loop ran, so the final
header no longer matched. -/
theorem tryParseDefinitions_trailing_header_cex :
    getNextMatchBounds matchDefFound rawTrailingHeader = some (0, 20) ∧
    tryParseDefinitions rawTrailingHeader = some strBodyFromB ∧
    jsTrim (stripSources (rawTrailingHeader.drop 20)) = strBody ∧
    strBodyFromB ≠ strBody :=
  ⟨by decide, by decide, by decide, by decide⟩

/-- C2 (amended): whenever `tryParseDefinitions` returns a body — the empty
string included, since `addWordEntry` only compares the result against
`null` — the lookup takes the Found path with exactly that body; the
empty-body case yields `found ""`, not `malformed`. -/
theorem addWordEntry_found_of_parse_some (text d : List Char)
    (h : tryParseDefinitions text = some d) :
    addWordEntryClassification text = ParseResult.found d := by
  simp [addWordEntryClassification, h]

/-- Witness for C2's amended theorem at Scenario A. -/
theorem addWordEntry_found_of_parse_some_witness :
    addWordEntryClassification rawScenarioA = ParseResult.found defScenarioA :=
  addWordEntry_found_of_parse_some rawScenarioA defScenarioA (by decide)

/-- C2 counterexample: on a raw text that is just the marker, the stripped
and trimmed body is empty, yet the code returns it as a Found definition
(`tryParseDefinitions` has no emptiness check, and `addWordEntry` checks
only for `null`), contradicting the claim that this case is `Malformed`
and that a Found definition is never empty after trimming. -/
theorem found_empty_definition_cex :
    tryParseDefinitions rawEmptyBody = some [] ∧
    addWordEntryClassification rawEmptyBody = ParseResult.found [] :=
  ⟨by decide, by decide⟩

/-- C3 (amended): whenever `noDefinitionPattern` first matches with end
position `e` — which requires the line after the marker text to contain a
colon followed by two spaces, i.e. the dict tool's `source:  ` prefix, the
match ending after the rightmost such colon-double-space of that line —
`tryParseWordSuggestions` returns the text after the match split on
double-space separators, and the element count is the number of
double-space delimiters plus one. -/
theorem tryParseWordSuggestions_split (text : List Char) (a e : Nat)
    (h : getNextMatchBounds matchNoDef text = some (a, e)) :
    tryParseWordSuggestions text = some (splitOnDS (text.drop e)) ∧
    (splitOnDS (text.drop e)).length = countDS (text.drop e) + 1 := by
  constructor
  · simp [tryParseWordSuggestions, h]
  · exact splitOnDS_length_eq _

/-- Witness for C3's amended theorem on the dict tool's actual not-found
shape (Scenario B with the `fd-fra-eng:  ` source prefix): the suggestions
are the segments after the marker, with the trailing empty segment
preserved. -/
theorem tryParseWordSuggestions_split_witness :
    getNextMatchBounds matchNoDef rawSuggestionsDict = some (0, 64) ∧
    tryParseWordSuggestions rawSuggestionsDict =
      some (splitOnDS (rawSuggestionsDict.drop 64)) ∧
    tryParseWordSuggestions rawSuggestionsDict =
      some [suggCat, suggCatty, suggCategory, []] :=
  ⟨by decide, (tryParseWordSuggestions_split rawSuggestionsDict 0 64 (by decide)).1,
    by decide⟩

/-- C3 counterexample: on Scenario B exactly as the claim states it — the
suggestion line `cat  catty  category  ` has no colon, so
`noDefinitionPattern`'s `.+:  ` cannot match — the parse returns `null`
and the lookup is `malformed`, not
`NotFound ["cat", "catty", "category", ""]`. -/
theorem scenarioB_not_parsed_cex :
    tryParseWordSuggestions rawScenarioB = none ∧
    addWordEntryClassification rawScenarioB = ParseResult.malformed :=
  ⟨by decide, by decide⟩

/-- C4: when neither marker occurs anywhere in the text (both scans report
no match), both parsers return `null` and the lookup is `malformed`. -/
theorem parse_malformed_of_no_marker (text : List Char)
    (h1 : getNextMatchBounds matchDefFound text = none)
    (h2 : getNextMatchBounds matchNoDef text = none) :
    tryParseDefinitions text = none ∧ tryParseWordSuggestions text = none ∧
    addWordEntryClassification text = ParseResult.malformed := by
  have hd : tryParseDefinitions text = none := by
    simp [tryParseDefinitions, h1]
  have hs : tryParseWordSuggestions text = none := by
    simp [tryParseWordSuggestions, h2]
  exact ⟨hd, hs, by simp [addWordEntryClassification, hd, hs]⟩

/-- Witness for C4 at Scenario C. -/
theorem parse_malformed_of_no_marker_witness :
    tryParseDefinitions rawScenarioC = none ∧
    tryParseWordSuggestions rawScenarioC = none ∧
    addWordEntryClassification rawScenarioC = ParseResult.malformed :=
  parse_malformed_of_no_marker rawScenarioC (by decide) (by decide)

/-- C5 (amended): if a file already exists at the target path,
`createWordNote` reports `alreadyExists` and leaves the vault (hence the
existing file's content) unchanged; and after any first call whose write
did not fail with an I/O error, a second call on the same path always
reports `alreadyExists` and changes nothing, so two calls never produce
two different file contents.  (The unconditional claim is refuted by
`createWordNote_ioError_cex`: when the first call's `fs.writeFile` fails,
no file exists, and the second call passes the existence check and
creates the note.) -/
theorem createWordNote_idempotent (files : List (List Char × List Char))
    (p t1 t2 : List Char) (w1 w2 : Bool) :
    (∀ c, fsLookup p files = some c →
      createWordNote w1 files p t1 = (files, NoteResult.alreadyExists)) ∧
    ((createWordNote w1 files p t1).2 ≠ NoteResult.ioError →
      createWordNote w2 (createWordNote w1 files p t1).1 p t2 =
        ((createWordNote w1 files p t1).1, NoteResult.alreadyExists)) := by
  constructor
  · intro c hc
    simp [createWordNote, hc]
  · intro hio
    cases hex : (fsLookup p files).isSome with
    | true => simp [createWordNote, hex]
    | false =>
      cases w1 with
      | false => simp [createWordNote, hex] at hio
      | true =>
        have hfst : createWordNote true files p t1 =
            ((p, t1) :: files, NoteResult.created) := by
          simp [createWordNote, hex]
        rw [hfst]
        simp [createWordNote, fsLookup]

/-- Witness for C5 at Scenario D: an entry for `cat` already exists at
`words/cat.md`; the write fails with `alreadyExists` twice and the vault
is never changed. -/
theorem createWordNote_idempotent_witness :
    createWordNote true vaultCat pathCat newContent = (vaultCat, NoteResult.alreadyExists) ∧
    createWordNote true (createWordNote true vaultCat pathCat newContent).1 pathCat
        newContent = ((createWordNote true vaultCat pathCat newContent).1,
      NoteResult.alreadyExists) :=
  ⟨(createWordNote_idempotent vaultCat pathCat newContent newContent true true).1
      oldContent (by decide),
    (createWordNote_idempotent vaultCat pathCat newContent newContent true true).2
      (by decide)⟩

/-- C5 counterexample: on an empty vault, a first call whose
`fs.writeFile` reports an error to its callback persists nothing, so a
second call with the same path passes the `existsSync` check and creates
the note — it does not fail with `alreadyExists`, refuting the claim's
unconditional "the second call always fails with AlreadyExists". -/
theorem createWordNote_ioError_cex :
    createWordNote false ([] : List (List Char × List Char)) pathCat newContent =
      ([], NoteResult.ioError) ∧
    createWordNote true
        (createWordNote false ([] : List (List Char × List Char)) pathCat newContent).1
        pathCat newContent = ([(pathCat, newContent)], NoteResult.created) ∧
    NoteResult.created ≠ NoteResult.alreadyExists :=
  ⟨by decide, by decide, by decide⟩

/-- C6: `getDictionaryResult` returns stdout on a normal exit, returns the
stderr text exactly when the thrown error carries exit status 21 (and that
text — when nonempty — is then fed to the parsers, not treated as an
error), and returns `null` for every other thrown status, without
rethrowing and without retrying (it is a total function called once). -/
theorem getDictionaryResult_exit_codes (out errText : List Char) (st : Option Nat)
    (hne : st ≠ some 21) (hstderr : errText ≠ []) :
    getDictionaryResult (ProcOutcome.exited out) = some out ∧
    getDictionaryResult (ProcOutcome.threw (some 21) errText) = some errText ∧
    getDictionaryResult (ProcOutcome.threw st errText) = none ∧
    lookupOutcome (ProcOutcome.threw (some 21) errText) =
      some (addWordEntryClassification errText) ∧
    lookupOutcome (ProcOutcome.threw st errText) = none := by
  refine ⟨rfl, by simp [getDictionaryResult], by simp [getDictionaryResult, hne], ?_, ?_⟩
  · simp [lookupOutcome, getDictionaryResult, List.length_eq_zero, hstderr]
  · simp [lookupOutcome, getDictionaryResult, hne]

/-- Witness for C6 with exit status 1 as the other failure. -/
theorem getDictionaryResult_exit_codes_witness :
    getDictionaryResult (ProcOutcome.exited stdoutSample) = some stdoutSample ∧
    getDictionaryResult (ProcOutcome.threw (some 21) rawSuggestionsDict) =
      some rawSuggestionsDict ∧
    getDictionaryResult (ProcOutcome.threw (some 1) rawSuggestionsDict) = none ∧
    lookupOutcome (ProcOutcome.threw (some 21) rawSuggestionsDict) =
      some (addWordEntryClassification rawSuggestionsDict) ∧
    lookupOutcome (ProcOutcome.threw (some 1) rawSuggestionsDict) = none :=
  getDictionaryResult_exit_codes stdoutSample rawSuggestionsDict (some 1)
    (by decide) (by decide)

/-- C7: `getSuggestions` keeps exactly the suggestions whose lowercased
text contains the lowercased query as a literal substring — membership is
characterised by an explicit decomposition, with no pattern compilation
involved — and the result is a sublist of the input, so the original order
is preserved. -/
theorem getSuggestions_filter_spec (sgs : List (List Char)) (q : List Char) :
    (getSuggestions sgs q).Sublist sgs ∧
    ∀ s, s ∈ getSuggestions sgs q ↔
      s ∈ sgs ∧ ∃ pre post, jsToLowerList s = pre ++ jsToLowerList q ++ post := by
  constructor
  · exact List.filter_sublist sgs
  · intro s
    simp only [getSuggestions, List.mem_filter]
    rw [containsSub_iff]

/-- C8: the position scan behind `getNextMatchBounds` — a fresh regex
object is built on each call, so the embedding is a pure function and two
calls with equal arguments are definitionally equal — returns `none`
exactly when the pattern matches at no position, and otherwise returns the
bounds of the leftmost match: `start ≤ end ≤ length` with `end - start`
the matched length, and no match at any earlier position. -/
theorem getNextMatchBounds_pure_spec (m : List Char → Option Nat) (s : List Char)
    (hm : ∀ t len, m t = some len → len ≤ t.length) :
    (getNextMatchBounds m s = none ↔ ∀ j, m (s.drop j) = none) ∧
    ∀ a b, getNextMatchBounds m s = some (a, b) →
      a ≤ b ∧ b ≤ s.length ∧ m (s.drop a) = some (b - a) ∧
      ∀ j, j < a → m (s.drop j) = none := by
  constructor
  · simpa using getNextMatchBoundsAux_none_iff m s 0
  · intro a b h
    obtain ⟨hab, hal, hmatch, hnone⟩ := getNextMatchBounds_some m s a b h
    have hlen := hm _ _ hmatch
    rw [List.length_drop] at hlen
    exact ⟨hab, by omega, hmatch, hnone⟩

/-- Witness for C8 with the definition-marker matcher on Scenario A. -/
theorem getNextMatchBounds_pure_spec_witness :
    (getNextMatchBounds matchDefFound rawScenarioA = none ↔
      ∀ j, matchDefFound (rawScenarioA.drop j) = none) ∧
    ∀ a b, getNextMatchBounds matchDefFound rawScenarioA = some (a, b) →
      a ≤ b ∧ b ≤ rawScenarioA.length ∧
      matchDefFound (rawScenarioA.drop a) = some (b - a) ∧
      ∀ j, j < a → matchDefFound (rawScenarioA.drop j) = none :=
  getNextMatchBounds_pure_spec matchDefFound rawScenarioA
    (fun t len h => (matchDefFound_spec t len h).2.1)

/-- C9: a successful suggestion parse always yields at least one segment
(splitting any string on a double space produces a nonempty list), so when
the definition parse failed, the lookup classifies as `notFound` with that
list — the no-suggestions branch of `addWordEntry` is reachable only when
the suggestion parse itself returned `null`. -/
theorem parsed_suggestions_nonempty (text : List Char) (sgs : List (List Char))
    (h : tryParseWordSuggestions text = some sgs)
    (hd : tryParseDefinitions text = none) :
    1 ≤ sgs.length ∧ addWordEntryClassification text = ParseResult.notFound sgs := by
  have hlen : 1 ≤ sgs.length := by
    unfold tryParseWordSuggestions at h
    cases hb : getNextMatchBounds matchNoDef text with
    | none =>
      rw [hb] at h
      exact absurd h (by simp)
    | some ab =>
      obtain ⟨a, e⟩ := ab
      rw [hb] at h
      have hsgs : splitOnDS (text.drop e) = sgs := Option.some.inj h
      have := splitOnDS_ne_nil (text.drop e)
      rw [hsgs] at this
      have := List.length_pos.mpr this
      omega
  have hcls : addWordEntryClassification text =
      if sgs.length < 1 then ParseResult.malformed else ParseResult.notFound sgs := by
    unfold addWordEntryClassification
    rw [hd, h]
  rw [hcls, if_neg (by omega)]
  exact ⟨hlen, rfl⟩

/-- Witness for C9 on the dict tool's actual not-found shape. -/
theorem parsed_suggestions_nonempty_witness :
    1 ≤ ([suggCat, suggCatty, suggCategory, []] : List (List Char)).length ∧
    addWordEntryClassification rawSuggestionsDict =
      ParseResult.notFound [suggCat, suggCatty, suggCategory, []] :=
  parsed_suggestions_nonempty rawSuggestionsDict [suggCat, suggCatty, suggCategory, []]
    (by decide) (by decide)

/-- C10: every match of `definitionSourcePattern` is at least 9 characters
(`From X:\n\n`) and lies inside the text, so removing it strictly shrinks
the working string; the stripping loop therefore terminates on every
input, reaching a state where no header matches — `tryParseDefinitions` is
a total function (it is defined by structural recursion on fuel
`length + 1`, which the strict decrease shows is never exhausted). -/
theorem stripSources_terminating (s : List Char) (a b : Nat)
    (h : getNextMatchBounds matchDefSource s = some (a, b)) :
    9 ≤ b - a ∧ b ≤ s.length ∧ (s.take a ++ s.drop b).length < s.length ∧
    getNextMatchBounds matchDefSource (stripSources s) = none := by
  obtain ⟨hab, hal, hmatch, -⟩ := getNextMatchBounds_some _ _ _ _ h
  obtain ⟨h9, hle⟩ := matchDefSource_bounds _ _ hmatch
  rw [List.length_drop] at hle
  refine ⟨h9, by omega, ?_, stripSources_no_match s⟩
  rw [List.length_append, List.length_take, List.length_drop, Nat.min_eq_left hal]
  omega

/-- Witness for C10 on a text that starts with a complete header. -/
theorem stripSources_terminating_witness :
    9 ≤ 9 - 0 ∧ 9 ≤ headerSample.length ∧
    (headerSample.take 0 ++ headerSample.drop 9).length < headerSample.length ∧
    getNextMatchBounds matchDefSource (stripSources headerSample) = none :=
  stripSources_terminating headerSample 0 9 (by decide)

end Lexicon
